import Mathlib

set_option maxHeartbeats 1000000

/-!
Shallow embedding of the M3U playlist parsing core of `m3u_merge`
(`src/m3u_merge/parse_m3u.py`): the attribute tokenizer
`_parse_extinf_attrs`, the line splitter `_split_extinf_line`, the
group-title normalizer `_normalize_group_title`, and the stream parser
`read_m3u`, together with the Python string primitives they rely on
(`str.strip`, `str.split`, `str.replace`, `in`, `or`, latin-1 encoding
and strict UTF-8 decoding).
-/

/-- Python's `str.isspace` predicate on a single character (the set of
Unicode whitespace code points recognised by CPython), also used by
`str.strip` and no-argument `str.split`. -/
def pyIsSpace (c : Char) : Bool :=
  let n := c.toNat
  (9 ≤ n && n ≤ 13) || (28 ≤ n && n ≤ 31) || n == 32 ||
  n == 0x85 || n == 0xA0 || n == 0x1680 ||
  (0x2000 ≤ n && n ≤ 0x200A) || n == 0x2028 || n == 0x2029 ||
  n == 0x202F || n == 0x205F || n == 0x3000

/-- Python `str.strip()` on a character list: drop whitespace from both ends. -/
def pyStripL (l : List Char) : List Char :=
  ((l.dropWhile pyIsSpace).reverse.dropWhile pyIsSpace).reverse

/-- Python `str.strip()`. -/
def pyStrip (s : String) : String :=
  ⟨pyStripL s.data⟩

/-- Worker for no-argument `str.split`: `acc` holds the characters of the
current word in reverse. -/
def pySplitAux : List Char → List Char → List (List Char)
  | [], acc => if acc.isEmpty then [] else [acc.reverse]
  | c :: rest, acc =>
    if pyIsSpace c then
      if acc.isEmpty then pySplitAux rest []
      else acc.reverse :: pySplitAux rest []
    else pySplitAux rest (c :: acc)

/-- Python no-argument `str.split()`: split on whitespace runs, dropping
empty pieces. -/
def pySplitL (l : List Char) : List (List Char) :=
  pySplitAux l []

/-- Python `" ".join(ws)`. -/
def joinSpaceL : List (List Char) → List Char
  | [] => []
  | [w] => w
  | w :: ws => w ++ ' ' :: joinSpaceL ws

/-- Whitespace collapsing, Python `" ".join(g.split())`. -/
def collapseL (l : List Char) : List Char :=
  joinSpaceL (pySplitL l)

/-- Python substring containment `pat in l`. -/
def hasSubL (pat : List Char) : List Char → Bool
  | [] => pat.isEmpty
  | c :: rest => pat.isPrefixOf (c :: rest) || hasSubL pat rest

/-- Python substring containment `pat in s` on strings. -/
def hasSub (s pat : String) : Bool :=
  hasSubL pat.data s.data

/-- Worker for Python `str.replace(pat, rep)`: left-to-right,
non-overlapping; `skip` counts characters of a just-matched pattern
occurrence that still have to be consumed without being re-examined. -/
def replAux (pat rep : List Char) : List Char → Nat → List Char
  | [], _ => []
  | _ :: rest, k + 1 => replAux pat rep rest k
  | c :: rest, 0 =>
    if pat.isPrefixOf (c :: rest) && !pat.isEmpty then
      rep ++ replAux pat rep rest (pat.length - 1)
    else
      c :: replAux pat rep rest 0

/-- Python `str.replace(pat, rep)` on character lists (all occurrences,
left to right, non-overlapping). -/
def replaceAllL (pat rep l : List Char) : List Char :=
  replAux pat rep l 0

/-- Python `str.replace(pat, rep)`. -/
def pyReplaceAll (s pat rep : String) : String :=
  ⟨replaceAllL pat.data rep.data s.data⟩

/-- Python `str.replace(pat, rep, 1)`: replace the first occurrence only. -/
def replFirstAux (pat rep : List Char) : List Char → List Char
  | [] => []
  | c :: rest =>
    if pat.isPrefixOf (c :: rest) && !pat.isEmpty then
      rep ++ rest.drop (pat.length - 1)
    else
      c :: replFirstAux pat rep rest

/-- Python `str.replace(pat, rep, 1)` on strings. -/
def pyReplaceFirst (s pat rep : String) : String :=
  ⟨replFirstAux pat.data rep.data s.data⟩

/-- Python `str.split(" ", 1)`: the part before the first literal space,
and (when a space exists) the part after it. -/
def splitOnceSpaceL : List Char → List Char × Option (List Char)
  | [] => ([], none)
  | c :: rest =>
    if c = ' ' then ([], some rest)
    else
      let p := splitOnceSpaceL rest
      (c :: p.1, p.2)

/-- Python `str.startswith(pre)`. -/
def startsWithStr (s pre : String) : Bool :=
  pre.data.isPrefixOf s.data

/-- Python `str.encode("latin1")`: each character of code point at most
0xFF becomes one byte; any higher code point raises `UnicodeEncodeError`,
modelled as `none`. -/
def latin1Encode (s : String) : Option (List Nat) :=
  s.data.mapM (fun c => if c.toNat ≤ 0xFF then some c.toNat else none)

/-- Is `b` a UTF-8 continuation byte (0x80-0xBF)? -/
def isContByte (b : Nat) : Bool :=
  0x80 ≤ b && b ≤ 0xBF

/-- Strict UTF-8 decoding of a byte list, as Python `bytes.decode("utf-8")`:
rejects stray continuation bytes, overlong forms, surrogate code points,
code points beyond U+10FFFF and truncated sequences (`UnicodeDecodeError`
is modelled as `none`). -/
def utf8DecodeAux : List Nat → Option (List Char)
  | [] => some []
  | b :: rest =>
    if b ≤ 0x7F then
      (utf8DecodeAux rest).map (fun cs => Char.ofNat b :: cs)
    else if b < 0xC2 then
      none
    else if b ≤ 0xDF then
      match rest with
      | b1 :: rest2 =>
        if isContByte b1 then
          (utf8DecodeAux rest2).map
            (fun cs => Char.ofNat ((b - 0xC0) * 0x40 + (b1 - 0x80)) :: cs)
        else none
      | [] => none
    else if b ≤ 0xEF then
      match rest with
      | b1 :: b2 :: rest2 =>
        if isContByte b1 && isContByte b2 then
          let cp := (b - 0xE0) * 0x1000 + (b1 - 0x80) * 0x40 + (b2 - 0x80)
          if cp < 0x800 || (0xD800 ≤ cp && cp ≤ 0xDFFF) then none
          else (utf8DecodeAux rest2).map (fun cs => Char.ofNat cp :: cs)
        else none
      | _ => none
    else if b ≤ 0xF4 then
      match rest with
      | b1 :: b2 :: b3 :: rest2 =>
        if isContByte b1 && isContByte b2 && isContByte b3 then
          let cp := (b - 0xF0) * 0x40000 + (b1 - 0x80) * 0x1000 +
                    (b2 - 0x80) * 0x40 + (b3 - 0x80)
          if cp < 0x10000 || 0x10FFFF < cp then none
          else (utf8DecodeAux rest2).map (fun cs => Char.ofNat cp :: cs)
        else none
      | _ => none
    else none

/-- Strict UTF-8 decoding to a string. -/
def utf8Decode (bs : List Nat) : Option String :=
  (utf8DecodeAux bs).map String.mk

/-- The UTF-8-as-Latin-1 artifact characters tested by the normalizer. -/
def artifactA : String := "Ã"

/-- The second artifact character tested by the normalizer. -/
def artifactB : String := "Â"

/-- The mojibake-repair step of `_normalize_group_title` (the
`if "Ã" in g or "Â" in g: try: g = g.encode("latin1").decode("utf-8")
except UnicodeError: pass` block). -/
def mojibakeRepair (g : String) : String :=
  if hasSub g artifactA || hasSub g artifactB then
    match latin1Encode g with
    | some bs =>
      match utf8Decode bs with
      | some s => s
      | none => g
    | none => g
  else g

/-- The transformation pipeline of `_normalize_group_title` applied to a
non-empty input string: strip, mojibake repair, `" + "` to `" & "`,
whitespace collapse. -/
def normalizeCore (g : String) : String :=
  ⟨collapseL (pyReplaceAll (mojibakeRepair (pyStrip g)) " + " " & ").data⟩

/-- `_normalize_group_title` on a string argument: the falsy check
`if not group: return group` keeps `""` as is; the trailing
`return g or None` maps an empty result to `None`. -/
def normalizeStr (g : String) : Option String :=
  if g = "" then some ""
  else if normalizeCore g = "" then none else some (normalizeCore g)

/-- `_normalize_group_title` on `Optional[str]`. -/
def normalizeGroupTitle : Option String → Option String
  | none => none
  | some g => normalizeStr g

/-- Python `dict` insertion `attrs[k] = v`: update in place when the key
exists, otherwise append. -/
def dictInsert (m : List (String × String)) (k v : String) :
    List (String × String) :=
  if m.any (fun p => p.1 = k) then
    m.map (fun p => if p.1 = k then (k, v) else p)
  else m ++ [(k, v)]

/-- The character loop of `_parse_extinf_attrs`: `key` is the pending key
(if any), `buf` the current buffer, `inQ` the inside-quotes flag. -/
def parseAttrsAux : List Char → Option (List Char) → List Char → Bool →
    List (String × String) → List (String × String)
  | [], _, _, _, attrs => attrs
  | c :: rest, key, buf, inQ, attrs =>
    if c = '"' then
      if inQ then
        match key with
        | some k => parseAttrsAux rest none [] false (dictInsert attrs ⟨k⟩ ⟨buf⟩)
        | none => parseAttrsAux rest none buf false attrs
      else parseAttrsAux rest key buf true attrs
    else if !inQ && pyIsSpace c then
      parseAttrsAux rest key buf inQ attrs
    else if !inQ && c = '=' && key.isNone then
      parseAttrsAux rest (some buf) [] inQ attrs
    else
      parseAttrsAux rest key (buf ++ [c]) inQ attrs

/-- `_parse_extinf_attrs`: parse `key="value"` pairs from the EXTINF
attribute section. -/
def parseExtinfAttrs (s : String) : List (String × String) :=
  parseAttrsAux s.data none [] false []

/-- The scanning loop of `_split_extinf_line`: find the first comma not
inside quotes and return the parts before and after it. -/
def splitAtUnquotedComma : List Char → Bool → Option (List Char × List Char)
  | [], _ => none
  | c :: rest, inQ =>
    let inQ' := if c = '"' then !inQ else inQ
    if c = ',' && !inQ then some ([], rest)
    else
      match splitAtUnquotedComma rest inQ' with
      | some (a, b) => some (c :: a, b)
      | none => none

/-- `_split_extinf_line`: split an `#EXTINF` line into the header part and
the channel-name part at the first unquoted comma; without such a comma
the whole line is the header and the name is empty. -/
def splitExtinfLine (line : String) : String × String :=
  if startsWithStr line "#EXTINF:" then
    match splitAtUnquotedComma (line.data.drop 8) false with
    | some (a, b) => (⟨line.data.take 8 ++ a⟩, ⟨b⟩)
    | none => (line, "")
  else
    match splitAtUnquotedComma line.data false with
    | some (a, b) => (⟨a⟩, ⟨b⟩)
    | none => (line, "")

/-- The channel record yielded by `read_m3u` (dataclass `M3UChannel`). -/
structure M3UChannel where
  name : String
  url : String
  tvg_id : Option String
  tvg_name : Option String
  group_title : Option String
  raw_attrs : Option (List (String × String))
deriving DecidableEq, Repr

/-- The pending state of the `read_m3u` loop (`last_attrs`, `last_name`). -/
structure PState where
  lastAttrs : Option (List (String × String))
  lastName : Option String
deriving DecidableEq, Repr

/-- Python `attrs.get(k)`. -/
def attrsGet (attrs : List (String × String)) (k : String) : Option String :=
  (attrs.find? (fun p => p.1 = k)).map (fun p => p.2)

/-- Python `a or b` on optional strings: `None` and `""` are falsy. -/
def pyOrStr : Option String → Option String → Option String
  | some s, b => if s = "" then b else some s
  | none, b => b

/-- The record construction in the resource-line branch of `read_m3u`:
fallback chains for `tvg_id` and `tvg_name`, group-title normalization,
and `raw_attrs = attrs or None`. -/
def buildChannel (attrs : List (String × String)) (name url : String) :
    M3UChannel :=
  { name := name
    url := url
    tvg_id := pyOrStr (attrsGet attrs "tvg-id") (attrsGet attrs "channel-id")
    tvg_name := pyOrStr
      (pyOrStr (attrsGet attrs "tvg-name") (attrsGet attrs "tvc-guide-title"))
      (some name)
    group_title := normalizeGroupTitle (attrsGet attrs "group-title")
    raw_attrs := if attrs = [] then none else some attrs }

/-- The `#EXTINF:` branch of `read_m3u`: split the line, strip the tag and
the duration token, tokenize the attribute section, and store the pending
state. -/
def extinfPending (line : String) : PState :=
  let p := splitExtinfLine line
  let cleanHeader := pyStrip (pyReplaceFirst p.1 "#EXTINF:" "")
  let attrStr : String :=
    match (splitOnceSpaceL cleanHeader.data).2 with
    | some rest => ⟨rest⟩
    | none => ""
  { lastAttrs := some (parseExtinfAttrs attrStr)
    lastName := some (pyStrip p.2) }

/-- One iteration of the `read_m3u` line loop: returns the next state and
the record yielded on this line, if any. -/
def stepLine (st : PState) (raw : String) : PState × Option M3UChannel :=
  if pyStrip raw = "" then (st, none)
  else if startsWithStr (pyStrip raw) "#EXTM3U" then (st, none)
  else if startsWithStr (pyStrip raw) "#EXTINF:" then
    (extinfPending (pyStrip raw), none)
  else if startsWithStr (pyStrip raw) "#" then (st, none)
  else
    (⟨none, none⟩,
     some (buildChannel (st.lastAttrs.getD [])
       (pyStrip (st.lastName.getD "")) (pyStrip raw)))

/-- Run the `read_m3u` loop from a given state over the remaining lines,
collecting the yielded records in order. -/
def runLines : PState → List String → List M3UChannel
  | _, [] => []
  | st, raw :: rest =>
    match stepLine st raw with
    | (st', some c) => c :: runLines st' rest
    | (st', none) => runLines st' rest

/-- The state of the `read_m3u` loop after consuming the given lines. -/
def finalState : PState → List String → PState
  | st, [] => st
  | st, raw :: rest => finalState (stepLine st raw).1 rest

/-- `read_m3u`: the lazy sequence of channel records produced for a
document, given as its list of lines. -/
def readM3U (doc : List String) : List M3UChannel :=
  runLines ⟨none, none⟩ doc


/-- A Boolean list prefix test succeeds exactly when the larger list is the
candidate followed by some tail. -/
theorem prefixBool_iff {l1 l2 : List Char} :
    l1.isPrefixOf l2 = true ↔ ∃ t, l2 = l1 ++ t := by
  induction l1 generalizing l2 with
  | nil => simp [List.isPrefixOf]
  | cons a as ih =>
    cases l2 with
    | nil => simp [List.isPrefixOf]
    | cons b bs =>
      constructor
      · intro h
        simp only [List.isPrefixOf, Bool.and_eq_true, beq_iff_eq] at h
        obtain ⟨rfl, h2⟩ := h
        obtain ⟨t, rfl⟩ := ih.mp h2
        exact ⟨t, rfl⟩
      · rintro ⟨t, ht⟩
        injection ht with h1 h2
        subst h1
        have h3 : as.isPrefixOf bs = true := ih.mpr ⟨t, h2⟩
        simp [List.isPrefixOf, h3]

/-- A line starting with the metadata tag is non-empty. -/
theorem extinf_ne_empty {s : String} (h : startsWithStr s "#EXTINF:" = true) :
    s ≠ "" := by
  intro he
  subst he
  exact absurd h (by decide)

/-- A line starting with the metadata tag does not start with the playlist
header tag. -/
theorem not_extm3u_of_extinf {s : String}
    (h : startsWithStr s "#EXTINF:" = true) :
    startsWithStr s "#EXTM3U" = false := by
  unfold startsWithStr at h ⊢
  obtain ⟨t, ht⟩ := prefixBool_iff.mp h
  rw [ht]
  rfl

/-- A line starting with the playlist header tag starts with the comment
marker. -/
theorem hash_of_extm3u {s : String}
    (h : startsWithStr s "#EXTM3U" = true) :
    startsWithStr s "#" = true := by
  unfold startsWithStr at h ⊢
  obtain ⟨t, ht⟩ := prefixBool_iff.mp h
  rw [ht]
  rfl

/-- A line starting with the metadata tag starts with the comment marker. -/
theorem hash_of_extinf {s : String}
    (h : startsWithStr s "#EXTINF:" = true) :
    startsWithStr s "#" = true := by
  unfold startsWithStr at h ⊢
  obtain ⟨t, ht⟩ := prefixBool_iff.mp h
  rw [ht]
  rfl

/-- On a metadata line, `stepLine` stores the pending state computed from
the stripped line alone and yields nothing. -/
theorem stepLine_extinf (st : PState) (raw : String)
    (h : startsWithStr (pyStrip raw) "#EXTINF:" = true) :
    stepLine st raw = (extinfPending (pyStrip raw), none) := by
  unfold stepLine
  rw [if_neg (extinf_ne_empty h), if_neg (by simp [not_extm3u_of_extinf h]),
    if_pos h]

/-- On a resource line, `stepLine` yields the record built from the pending
state and clears it. -/
theorem stepLine_resource (st : PState) (raw : String)
    (h1 : pyStrip raw ≠ "")
    (h2 : startsWithStr (pyStrip raw) "#" = false) :
    stepLine st raw =
      (⟨none, none⟩,
       some (buildChannel (st.lastAttrs.getD [])
         (pyStrip (st.lastName.getD "")) (pyStrip raw))) := by
  unfold stepLine
  rw [if_neg h1,
    if_neg (fun hm => by simp [hash_of_extm3u hm] at h2),
    if_neg (fun hm => by simp [hash_of_extinf hm] at h2),
    if_neg (by simp [h2])]

/-- Whenever `stepLine` yields a record, the state is reset and the
record's url is the stripped, non-empty input line. -/
theorem stepLine_some_inv (st st' : PState) (raw : String) (c : M3UChannel)
    (h : stepLine st raw = (st', some c)) :
    st' = ⟨none, none⟩ ∧ c.url = pyStrip raw ∧ pyStrip raw ≠ "" := by
  unfold stepLine at h
  split at h
  · simp at h
  split at h
  · simp at h
  split at h
  · simp at h
  split at h
  · simp at h
  · rw [Prod.mk.injEq] at h
    obtain ⟨hst, hc⟩ := h
    injection hc with hc
    subst hc
    exact ⟨hst.symm, rfl, by assumption⟩

/-- Unfolding equation of `runLines` on a non-empty document. -/
theorem runLines_cons (st : PState) (raw : String) (rest : List String) :
    runLines st (raw :: rest) =
      (match stepLine st raw with
       | (st', some c) => c :: runLines st' rest
       | (st', none) => runLines st' rest) := rfl

/-- `runLines` over a concatenation: records of the first part, then the
records of the second part from the intermediate state. -/
theorem runLines_append (l1 : List String) (st : PState) (l2 : List String) :
    runLines st (l1 ++ l2) =
      runLines st l1 ++ runLines (finalState st l1) l2 := by
  induction l1 generalizing st with
  | nil => simp [runLines, finalState]
  | cons raw rest ih =>
    rw [List.cons_append, runLines_cons, runLines_cons]
    cases h : stepLine st raw with
    | mk st' c? =>
      have hfs : finalState st (raw :: rest) = finalState st' rest := by
        have e : finalState st (raw :: rest) =
            finalState (stepLine st raw).1 rest := rfl
        rw [e, h]
      cases c? <;> simp [hfs, ih]

/-- A metadata line consumed at the head of the remaining document only
changes the pending state. -/
theorem runLines_extinf_cons (st : PState) (raw : String) (rest : List String)
    (h : startsWithStr (pyStrip raw) "#EXTINF:" = true) :
    runLines st (raw :: rest) =
      runLines (extinfPending (pyStrip raw)) rest := by
  rw [runLines_cons, stepLine_extinf st raw h]

/-- Every record produced by `runLines` has a non-empty url. -/
theorem runLines_url_ne (lines : List String) :
    ∀ st c, c ∈ runLines st lines → c.url ≠ "" := by
  induction lines with
  | nil =>
    intro st c hc
    simp [runLines] at hc
  | cons raw rest ih =>
    intro st c hc
    rw [runLines_cons] at hc
    cases h : stepLine st raw with
    | mk st' c? =>
      rw [h] at hc
      cases c? with
      | none => exact ih st' c hc
      | some ch =>
        simp only [List.mem_cons] at hc
        rcases hc with rfl | hc
        · obtain ⟨-, hurl, hne⟩ := stepLine_some_inv st st' raw c h
          rw [hurl]
          exact hne
        · exact ih st' c hc

/-- The tokenizer loop never commits a pair while scanning characters
outside quotes, so a quote-free fragment adds nothing to the mapping. -/
theorem parseAttrsAux_no_quote :
    ∀ (l : List Char) key buf attrs, (∀ c ∈ l, c ≠ '"') →
      parseAttrsAux l key buf false attrs = attrs := by
  intro l
  induction l with
  | nil => intro key buf attrs _; rfl
  | cons c rest ih =>
    intro key buf attrs hq
    have hc : ¬(c = '"') := hq c (by simp)
    have hrest : ∀ x ∈ rest, x ≠ '"' := fun x hx => hq x (by simp [hx])
    unfold parseAttrsAux
    rw [if_neg hc]
    split
    · exact ih _ _ _ hrest
    · split
      · exact ih _ _ _ hrest
      · exact ih _ _ _ hrest

/-- C1: the claim that a resource line arriving with no pending metadata is
silently consumed without a record is false: the parser emits a record for
it. -/
theorem orphan_resource_emits_record :
    readM3U ["http://example/stream"] ≠ [] := by decide

/-- C1 (amended): a resource line arriving while no metadata is pending is
consumed and a record IS emitted for it, with empty name, the stripped
line as url, `guideId`, `groupTitle` and `rawAttributes` absent, and
`guideName` the empty string. -/
theorem orphan_resource_record_shape (raw : String)
    (h1 : pyStrip raw ≠ "")
    (h2 : startsWithStr (pyStrip raw) "#" = false) :
    stepLine ⟨none, none⟩ raw =
      (⟨none, none⟩, some ⟨"", pyStrip raw, none, some "", none, none⟩) ∧
    readM3U [raw] = [⟨"", pyStrip raw, none, some "", none, none⟩] := by
  have hs := stepLine_resource ⟨none, none⟩ raw h1 h2
  constructor
  · rw [hs]
    rfl
  · unfold readM3U
    rw [runLines_cons, hs]
    rfl

/-- C1 (amended) witness at a concrete resource line. -/
theorem orphan_resource_record_shape_witness :
    stepLine ⟨none, none⟩ "http://host/live.ts" =
      (⟨none, none⟩,
       some ⟨"", "http://host/live.ts", none, some "", none, none⟩) ∧
    readM3U ["http://host/live.ts"] =
      [⟨"", "http://host/live.ts", none, some "", none, none⟩] :=
  orphan_resource_record_shape "http://host/live.ts" (by decide) (by decide)

/-- C3: the well-formed two-line document with a quoted comma inside
`group-title` parses to exactly one record with the expected fields; the
quoted comma is not used as the attribute/label split point. -/
theorem wellformed_roundtrip_parse :
    readM3U ["#EXTINF:-1 tvg-id=\"US1\" group-title=\"Nature, History & Science\" tvg-chno=\"2905\",PBS Genealogy",
             "http://example/stream"] =
      [⟨"PBS Genealogy", "http://example/stream", some "US1",
        some "PBS Genealogy", some "Nature, History & Science",
        some [("tvg-id", "US1"),
              ("group-title", "Nature, History & Science"),
              ("tvg-chno", "2905")]⟩] := by decide

/-- C5: the claim that `#EXTINF:-1,Channel Name` yields a record with all
optional fields absent is false: `guideName` falls back to the display
label and is `"Channel Name"`, not absent. -/
theorem empty_attrs_guidename_not_absent :
    (readM3U ["#EXTINF:-1,Channel Name", "http://example/stream"]).map
      M3UChannel.tvg_name ≠ [none] := by decide

/-- C5 (amended): a metadata line with no attributes followed by a
resource line yields one record with no stored attributes,
`name = "Channel Name"`, `guideId` and `groupTitle` absent, and
`guideName` equal to the display label `"Channel Name"`. -/
theorem empty_attrs_record_shape :
    readM3U ["#EXTINF:-1,Channel Name", "http://example/stream"] =
      [⟨"Channel Name", "http://example/stream", none,
        some "Channel Name", none, none⟩] := by decide

/-- C7: every record emitted by the stream parser has a non-empty url, and
a metadata line with no following resource line before end of input
produces no record. -/
theorem url_nonempty_and_orphan_metadata :
    (∀ doc : List String, ∀ c ∈ readM3U doc, c.url ≠ "") ∧
    (∀ (doc : List String) (m : String),
      startsWithStr (pyStrip m) "#EXTINF:" = true →
      readM3U (doc ++ [m]) = readM3U doc) := by
  constructor
  · intro doc c hc
    exact runLines_url_ne doc ⟨none, none⟩ c hc
  · intro doc m hm
    unfold readM3U
    rw [runLines_append, runLines_extinf_cons _ _ _ hm]
    simp [runLines]

/-- C7 witness: the url of the record of a concrete document is non-empty,
and appending a trailing metadata line to a concrete document adds no
record. -/
theorem url_nonempty_and_orphan_metadata_witness :
    (⟨"", "http://a/1", none, some "", none, none⟩ : M3UChannel).url ≠ "" ∧
    readM3U (["http://a/1"] ++ ["#EXTINF:-1,Dangling"]) =
      readM3U ["http://a/1"] :=
  ⟨url_nonempty_and_orphan_metadata.1 ["http://a/1"]
      ⟨"", "http://a/1", none, some "", none, none⟩ (by decide),
   url_nonempty_and_orphan_metadata.2 ["http://a/1"] "#EXTINF:-1,Dangling"
      (by decide)⟩

/-- C8: when two metadata lines occur with no resource line between them,
the earlier one is discarded and the document parses as if only the later
one were present; and consuming a resource line clears the pending state
back to Idle. -/
theorem last_metadata_wins_and_state_cleared :
    (∀ (pre post : List String) (m1 m2 : String),
      startsWithStr (pyStrip m1) "#EXTINF:" = true →
      startsWithStr (pyStrip m2) "#EXTINF:" = true →
      readM3U (pre ++ m1 :: m2 :: post) = readM3U (pre ++ m2 :: post)) ∧
    (∀ (st : PState) (raw : String), pyStrip raw ≠ "" →
      startsWithStr (pyStrip raw) "#" = false →
      (stepLine st raw).1 = ⟨none, none⟩) := by
  constructor
  · intro pre post m1 m2 h1 h2
    unfold readM3U
    rw [runLines_append, runLines_append]
    congr 1
    rw [runLines_extinf_cons _ _ _ h1, runLines_extinf_cons _ _ _ h2,
      runLines_extinf_cons _ _ _ h2]
  · intro st raw h1 h2
    rw [stepLine_resource st raw h1 h2]

/-- C8 witness at a concrete document with two consecutive metadata lines,
and a concrete pending state cleared by a resource line. -/
theorem last_metadata_wins_and_state_cleared_witness :
    readM3U (["#EXTM3U"] ++ "#EXTINF:-1,First" :: "#EXTINF:-1,Second" ::
        ["http://a/2"]) =
      readM3U (["#EXTM3U"] ++ "#EXTINF:-1,Second" :: ["http://a/2"]) ∧
    (stepLine ⟨some [("tvg-id", "X")], some "Pending"⟩ "http://a/3").1 =
      ⟨none, none⟩ :=
  ⟨last_metadata_wins_and_state_cleared.1 ["#EXTM3U"] ["http://a/2"]
      "#EXTINF:-1,First" "#EXTINF:-1,Second" (by decide) (by decide),
   last_metadata_wins_and_state_cleared.2
      ⟨some [("tvg-id", "X")], some "Pending"⟩ "http://a/3"
      (by decide) (by decide)⟩

/-- C9: in the record builder's fallback chains an attribute present with
an empty-string value is treated like an absent one: an empty `tvg-id`
falls through to `channel-id`, and an empty `tvg-name` falls through to
`tvc-guide-title` and then to the display label. -/
theorem empty_attr_value_fallback :
    (∀ (attrs : List (String × String)) (name url v : String),
      attrsGet attrs "tvg-id" = some "" →
      attrsGet attrs "channel-id" = some v → v ≠ "" →
      (buildChannel attrs name url).tvg_id = some v) ∧
    (∀ (attrs : List (String × String)) (name url w : String),
      attrsGet attrs "tvg-name" = some "" →
      attrsGet attrs "tvc-guide-title" = some w → w ≠ "" →
      (buildChannel attrs name url).tvg_name = some w) ∧
    (∀ (attrs : List (String × String)) (name url : String),
      attrsGet attrs "tvg-name" = some "" →
      (attrsGet attrs "tvc-guide-title" = none ∨
       attrsGet attrs "tvc-guide-title" = some "") →
      (buildChannel attrs name url).tvg_name = some name) := by
  refine ⟨?_, ?_, ?_⟩
  · intro attrs name url v h1 h2 hv
    unfold buildChannel
    rw [h1, h2]
    simp [pyOrStr, hv]
  · intro attrs name url w h1 h2 hw
    unfold buildChannel
    rw [h1, h2]
    simp [pyOrStr, hw]
  · intro attrs name url h1 h2
    unfold buildChannel
    rcases h2 with h2 | h2 <;> rw [h1, h2] <;> simp [pyOrStr]

/-- C9 witness at concrete attribute maps. -/
theorem empty_attr_value_fallback_witness :
    (buildChannel [("tvg-id", ""), ("channel-id", "CH7")] "Disp" "u").tvg_id =
      some "CH7" ∧
    (buildChannel [("tvg-name", ""), ("tvc-guide-title", "Guide T")]
      "Disp" "u").tvg_name = some "Guide T" ∧
    (buildChannel [("tvg-name", ""), ("tvc-guide-title", "")]
      "Disp" "u").tvg_name = some "Disp" :=
  ⟨empty_attr_value_fallback.1 [("tvg-id", ""), ("channel-id", "CH7")]
      "Disp" "u" "CH7" (by decide) (by decide) (by decide),
   empty_attr_value_fallback.2.1
      [("tvg-name", ""), ("tvc-guide-title", "Guide T")]
      "Disp" "u" "Guide T" (by decide) (by decide) (by decide),
   empty_attr_value_fallback.2.2 [("tvg-name", ""), ("tvc-guide-title", "")]
      "Disp" "u" (by decide) (Or.inr (by decide))⟩

/-- C10: the attribute tokenizer commits a key/value pair only on a closing
quote: a quote-free input (such as a key followed by an unquoted value)
yields an empty mapping, and any input yielding a non-empty mapping
contains a double-quote character. -/
theorem tokenizer_commits_only_on_closing_quote :
    (∀ s : String, (∀ c ∈ s.data, c ≠ '"') → parseExtinfAttrs s = []) ∧
    (∀ s : String, parseExtinfAttrs s ≠ [] → ∃ c ∈ s.data, c = '"') ∧
    parseExtinfAttrs "tvg-id=abc" = [] := by
  have base : ∀ s : String, (∀ c ∈ s.data, c ≠ '"') →
      parseExtinfAttrs s = [] :=
    fun s h => parseAttrsAux_no_quote s.data none [] [] h
  refine ⟨base, ?_, by decide⟩
  intro s hne
  by_contra h
  push_neg at h
  exact hne (base s h)

/-- C10 witness: a concrete quote-free fragment yields the empty mapping. -/
theorem tokenizer_commits_only_on_closing_quote_witness :
    parseExtinfAttrs "tvg-id=abc group-title=News" = [] :=
  tokenizer_commits_only_on_closing_quote.1 "tvg-id=abc group-title=News"
    (by decide)

/-- Rebuilding a string from its character list is the identity. -/
theorem stringMk_data (s : String) : String.mk s.data = s := by
  cases s
  rfl

/-- Every word produced by the whitespace splitter is non-empty and free of
whitespace characters. -/
theorem pySplitAux_words :
    ∀ (l acc : List Char), (∀ c ∈ acc, pyIsSpace c = false) →
      ∀ w ∈ pySplitAux l acc, w ≠ [] ∧ ∀ c ∈ w, pyIsSpace c = false := by
  intro l
  induction l with
  | nil =>
    intro acc hacc w hw
    unfold pySplitAux at hw
    by_cases he : acc.isEmpty = true
    · rw [if_pos he] at hw
      simp at hw
    · rw [if_neg he] at hw
      simp only [List.mem_singleton] at hw
      subst hw
      refine ⟨fun hn => he ?_, fun c hc => hacc c (List.mem_reverse.mp hc)⟩
      have : acc = [] := by simpa using congrArg List.reverse hn
      simp [this]
  | cons c rest ih =>
    intro acc hacc w hw
    unfold pySplitAux at hw
    by_cases hs : pyIsSpace c = true
    · rw [if_pos hs] at hw
      by_cases he : acc.isEmpty = true
      · rw [if_pos he] at hw
        exact ih [] (by simp) w hw
      · rw [if_neg he] at hw
        rcases List.mem_cons.mp hw with rfl | hw'
        · refine ⟨fun hn => he ?_, fun x hx => hacc x (List.mem_reverse.mp hx)⟩
          have : acc = [] := by simpa using congrArg List.reverse hn
          simp [this]
        · exact ih [] (by simp) w hw'
    · rw [if_neg hs] at hw
      refine ih (c :: acc) ?_ w hw
      intro x hx
      rcases List.mem_cons.mp hx with rfl | hx'
      · simpa using hs
      · exact hacc x hx'

/-- Unfolding equation of the splitter worker on a cons cell. -/
theorem pySplitAux_cons (c : Char) (rest acc : List Char) :
    pySplitAux (c :: rest) acc =
      if pyIsSpace c then
        if acc.isEmpty then pySplitAux rest []
        else acc.reverse :: pySplitAux rest []
      else pySplitAux rest (c :: acc) := rfl

/-- Feeding a whitespace-free word into the splitter just accumulates it. -/
theorem pySplitAux_append :
    ∀ (w l acc : List Char), (∀ c ∈ w, pyIsSpace c = false) →
      pySplitAux (w ++ l) acc = pySplitAux l (w.reverse ++ acc) := by
  intro w
  induction w with
  | nil => intro l acc _; simp
  | cons c w' ih =>
    intro l acc hw
    have hc : pyIsSpace c = false := hw c (by simp)
    show pySplitAux (c :: (w' ++ l)) acc = _
    rw [pySplitAux_cons, if_neg (by simp [hc])]
    rw [ih l (c :: acc) (fun x hx => hw x (by simp [hx]))]
    congr 1
    simp

/-- The reverse of a non-empty list is non-empty, in `isEmpty` form. -/
theorem reverse_isEmpty_false {l : List Char} (h : l ≠ []) :
    l.reverse.isEmpty = false := by
  cases hr : l.reverse with
  | nil =>
    exact absurd (by simpa using congrArg List.reverse hr) h
  | cons c t => rfl

/-- Splitting the space-joined form of non-empty whitespace-free words
recovers exactly those words. -/
theorem pySplit_join :
    ∀ ws : List (List Char),
      (∀ w ∈ ws, w ≠ [] ∧ ∀ c ∈ w, pyIsSpace c = false) →
      pySplitL (joinSpaceL ws) = ws := by
  intro ws
  induction ws with
  | nil => intro _; rfl
  | cons w ws ih =>
    intro hws
    obtain ⟨hne, hnos⟩ := hws w (by simp)
    cases ws with
    | nil =>
      show pySplitAux (joinSpaceL [w]) [] = [w]
      have hj : joinSpaceL [w] = w := rfl
      rw [hj]
      have := pySplitAux_append w [] [] hnos
      rw [List.append_nil] at this
      rw [this]
      unfold pySplitAux
      rw [if_neg (by simp [reverse_isEmpty_false hne])]
      simp
    | cons w' ws' =>
      show pySplitAux (joinSpaceL (w :: w' :: ws')) [] = w :: w' :: ws'
      have hj : joinSpaceL (w :: w' :: ws') =
          w ++ ' ' :: joinSpaceL (w' :: ws') := rfl
      rw [hj, pySplitAux_append w _ [] hnos, List.append_nil]
      unfold pySplitAux
      rw [if_pos (by decide : pyIsSpace ' ' = true)]
      rw [if_neg (by simp [reverse_isEmpty_false hne])]
      rw [List.reverse_reverse]
      congr 1
      exact ih (fun x hx => hws x (by simp [hx]))

/-- Dropping while a predicate fails on every element is the identity. -/
theorem dropWhile_all_false {p : Char → Bool} :
    ∀ l : List Char, (∀ c ∈ l, p c = false) → l.dropWhile p = l := by
  intro l h
  cases l with
  | nil => rfl
  | cons c t =>
    rw [List.dropWhile_cons, h c (by simp)]
    simp

/-- A non-empty list fixed by `dropWhile` starts with an element on which
the predicate fails. -/
theorem head_false_of_dropWhile_self {p : Char → Bool} :
    ∀ l : List Char, l ≠ [] → l.dropWhile p = l →
      ∃ c t, l = c :: t ∧ p c = false := by
  intro l hne hself
  cases l with
  | nil => exact absurd rfl hne
  | cons c t =>
    by_cases hp : p c = true
    · rw [List.dropWhile_cons, if_pos hp] at hself
      have hlen : (t.dropWhile p).length ≤ t.length :=
        (List.dropWhile_sublist p).length_le
      rw [hself] at hlen
      simp at hlen
    · exact ⟨c, t, rfl, by simpa using hp⟩

/-- The space-joined form of a list of words headed by a non-empty word is
non-empty. -/
theorem joinSpace_ne_nil :
    ∀ (w : List Char) (ws : List (List Char)), w ≠ [] →
      joinSpaceL (w :: ws) ≠ [] := by
  intro w ws hne
  cases ws with
  | nil => simpa [joinSpaceL] using hne
  | cons w' ws' =>
    cases w with
    | nil => exact absurd rfl hne
    | cons c t => simp [joinSpaceL]

/-- The space-joined form of non-empty whitespace-free words has no leading
whitespace. -/
theorem dropWhile_join (ws : List (List Char))
    (h : ∀ w ∈ ws, w ≠ [] ∧ ∀ c ∈ w, pyIsSpace c = false) :
    (joinSpaceL ws).dropWhile pyIsSpace = joinSpaceL ws := by
  cases ws with
  | nil => rfl
  | cons w ws' =>
    obtain ⟨hne, hnos⟩ := h w (by simp)
    cases w with
    | nil => exact absurd rfl hne
    | cons c t =>
      have hc : pyIsSpace c = false := hnos c (by simp)
      cases ws' with
      | nil =>
        show (c :: t).dropWhile pyIsSpace = c :: t
        rw [List.dropWhile_cons, hc]
        simp
      | cons w' ws'' =>
        show ((c :: t) ++ ' ' :: joinSpaceL (w' :: ws'')).dropWhile pyIsSpace
            = _
        rw [List.cons_append, List.dropWhile_cons, hc]
        simp [joinSpaceL]

/-- The space-joined form of non-empty whitespace-free words has no
trailing whitespace. -/
theorem dropWhile_reverse_join :
    ∀ ws : List (List Char),
      (∀ w ∈ ws, w ≠ [] ∧ ∀ c ∈ w, pyIsSpace c = false) →
      (joinSpaceL ws).reverse.dropWhile pyIsSpace = (joinSpaceL ws).reverse := by
  intro ws
  induction ws with
  | nil => intro _; rfl
  | cons w ws' ih =>
    intro h
    obtain ⟨hne, hnos⟩ := h w (by simp)
    cases ws' with
    | nil =>
      apply dropWhile_all_false
      intro c hc
      have : c ∈ w := by
        have hj : joinSpaceL [w] = w := rfl
        rw [hj] at hc
        exact List.mem_reverse.mp hc
      exact hnos c this
    | cons w' ws'' =>
      have hj : joinSpaceL (w :: w' :: ws'') =
          w ++ ' ' :: joinSpaceL (w' :: ws'') := rfl
      rw [hj, List.reverse_append, List.reverse_cons]
      have hJne : joinSpaceL (w' :: ws'') ≠ [] :=
        joinSpace_ne_nil w' ws'' (h w' (by simp)).1
      have hJrevne : (joinSpaceL (w' :: ws'')).reverse ≠ [] := by
        intro hn
        exact hJne (by simpa using congrArg List.reverse hn)
      have hJdrop := ih (fun x hx => h x (by simp [hx]))
      obtain ⟨c', t', hJr, hc'⟩ :=
        head_false_of_dropWhile_self _ hJrevne hJdrop
      rw [hJr, List.cons_append, List.cons_append, List.dropWhile_cons, hc']
      simp

/-- Whitespace splitting of any list yields non-empty whitespace-free
words. -/
theorem pySplitL_words (l : List Char) :
    ∀ w ∈ pySplitL l, w ≠ [] ∧ ∀ c ∈ w, pyIsSpace c = false :=
  pySplitAux_words l [] (by simp)

/-- Collapsing whitespace twice is the same as collapsing once. -/
theorem collapse_idem (l : List Char) : collapseL (collapseL l) = collapseL l := by
  show joinSpaceL (pySplitL (joinSpaceL (pySplitL l))) = joinSpaceL (pySplitL l)
  rw [pySplit_join _ (pySplitL_words l)]

/-- A whitespace-collapsed list is unchanged by stripping. -/
theorem pyStrip_collapse (l : List Char) :
    pyStripL (collapseL l) = collapseL l := by
  show ((((joinSpaceL (pySplitL l)).dropWhile
    pyIsSpace).reverse.dropWhile pyIsSpace)).reverse = _
  rw [dropWhile_join _ (pySplitL_words l),
    dropWhile_reverse_join _ (pySplitL_words l), List.reverse_reverse]
  rfl

/-- Replacement scanning never fires on a list without an occurrence of the
pattern. -/
theorem replAux_id (pat rep : List Char) :
    ∀ l : List Char, hasSubL pat l = false → replAux pat rep l 0 = l := by
  intro l
  induction l with
  | nil => intro _; rfl
  | cons c rest ih =>
    intro h
    unfold hasSubL at h
    simp only [Bool.or_eq_false_iff] at h
    obtain ⟨h1, h2⟩ := h
    unfold replAux
    rw [if_neg (by simp [h1])]
    rw [ih h2]

/-- Python `replace` leaves a string without the pattern unchanged. -/
theorem replaceAll_id (s pat rep : String) (h : hasSub s pat = false) :
    pyReplaceAll s pat rep = s := by
  unfold hasSub at h
  unfold pyReplaceAll replaceAllL
  rw [replAux_id _ _ _ h]

/-- C2: the claim that the group-title normalizer is idempotent on every
input is false: on `"a + + b"` one application yields `"a & + b"` (the
two overlapping `" + "` occurrences are replaced non-overlappingly, left
to right), and a second application changes it again to `"a & & b"`. -/
theorem normalize_not_idempotent :
    normalizeGroupTitle (normalizeGroupTitle (some "a + + b")) ≠
      normalizeGroupTitle (some "a + + b") := by decide

/-- C2 (amended): the normalizer is idempotent on every input whose
normalized result contains neither the substring `" + "` nor the mojibake
artifact characters: if normalizing `g` yields `t` and `t` is free of
`" + "`, `"Ã"` and `"Â"`, then normalizing `t` yields `t` again. -/
theorem normalize_idempotent_of_clean (g t : String)
    (h : normalizeStr g = some t)
    (hp : hasSub t " + " = false)
    (ha : hasSub t artifactA = false)
    (hb : hasSub t artifactB = false) :
    normalizeStr t = some t := by
  by_cases hg : g = ""
  · subst hg
    unfold normalizeStr at h
    rw [if_pos rfl] at h
    injection h with h
    subst h
    unfold normalizeStr
    rw [if_pos rfl]
  · unfold normalizeStr at h
    rw [if_neg hg] at h
    by_cases hr : normalizeCore g = ""
    · rw [if_pos hr] at h
      exact absurd h (by simp)
    · rw [if_neg hr] at h
      injection h with ht
      have htne : t ≠ "" := ht ▸ hr
      have hdata : t.data =
          collapseL (pyReplaceAll (mojibakeRepair (pyStrip g)) " + " " & ").data := by
        rw [← ht]
        rfl
      have hstrip : pyStrip t = t := by
        unfold pyStrip
        rw [hdata, pyStrip_collapse, ← hdata]
      have hrep : mojibakeRepair t = t := by
        unfold mojibakeRepair
        rw [ha, hb]
        rfl
      have hrepl : pyReplaceAll t " + " " & " = t := replaceAll_id t _ _ hp
      have hcol : collapseL t.data = t.data := by
        rw [hdata, collapse_idem]
      have hcore : normalizeCore t = t := by
        unfold normalizeCore
        rw [hstrip, hrep, hrepl, hcol]
      unfold normalizeStr
      rw [if_neg htne, hcore, if_neg htne]

/-- C2 (amended) witness: a concrete input whose normalized result is
clean, on which the normalizer is idempotent. -/
theorem normalize_idempotent_of_clean_witness :
    normalizeStr "News & Weather" = some "News & Weather" :=
  normalize_idempotent_of_clean "News  &  Weather " "News & Weather"
    (by decide) (by decide) (by decide) (by decide)

/-- C4: the claim that the mojibake-repaired text replaces the original
only when it no longer contains the artifact character is false: on the
doubly mis-decoded input `"Ã\x83Â©"` the round-trip succeeds, its result
`"Ã©"` still contains `"Ã"`, and the code replaces the original with it
anyway. -/
theorem mojibake_repair_keeps_artifact :
    mojibakeRepair (String.mk [Char.ofNat 0xC3, Char.ofNat 0x83,
        Char.ofNat 0xC2, Char.ofNat 0xA9]) ≠
      String.mk [Char.ofNat 0xC3, Char.ofNat 0x83,
        Char.ofNat 0xC2, Char.ofNat 0xA9] ∧
    hasSub (mojibakeRepair (String.mk [Char.ofNat 0xC3, Char.ofNat 0x83,
        Char.ofNat 0xC2, Char.ofNat 0xA9])) artifactA = true := by decide

/-- C4 (amended): for an input containing an artifact character, the
repaired text replaces the original exactly when re-encoding as Latin-1
and re-decoding as UTF-8 both succeed — whether or not the repaired text
still contains the artifact; on encoding or decoding failure the original
is kept unchanged, and an artifact-free input is left untouched. -/
theorem mojibake_repair_cases :
    (∀ g : String, hasSub g artifactA = false → hasSub g artifactB = false →
      mojibakeRepair g = g) ∧
    (∀ (g : String) (bs : List Nat) (s : String),
      (hasSub g artifactA || hasSub g artifactB) = true →
      latin1Encode g = some bs → utf8Decode bs = some s →
      mojibakeRepair g = s) ∧
    (∀ g : String, latin1Encode g = none → mojibakeRepair g = g) ∧
    (∀ (g : String) (bs : List Nat),
      latin1Encode g = some bs → utf8Decode bs = none →
      mojibakeRepair g = g) := by
  refine ⟨?_, ?_, ?_, ?_⟩
  · intro g ha hb
    unfold mojibakeRepair
    rw [ha, hb]
    rfl
  · intro g bs s hart henc hdec
    unfold mojibakeRepair
    rw [if_pos hart, henc]
    show (match utf8Decode bs with
          | some s => s
          | none => g) = s
    rw [hdec]
  · intro g henc
    unfold mojibakeRepair
    by_cases hart : (hasSub g artifactA || hasSub g artifactB) = true
    · rw [if_pos hart, henc]
    · rw [if_neg hart]
  · intro g bs henc hdec
    unfold mojibakeRepair
    by_cases hart : (hasSub g artifactA || hasSub g artifactB) = true
    · rw [if_pos hart, henc]
      show (match utf8Decode bs with
            | some s => s
            | none => g) = g
      rw [hdec]
    · rw [if_neg hart]

/-- C4 (amended) witness: a singly mis-decoded `"Ã©"` round-trips to
`"é"`, which replaces the original. -/
theorem mojibake_repair_cases_witness :
    mojibakeRepair "Ã©" = "é" :=
  mojibake_repair_cases.2.1 "Ã©" [0xC3, 0xA9] "é"
    (by decide) (by decide) (by decide)

/-- C6: the normalizer turns `"Comedy + Drama"` into `"Comedy & Drama"`,
leaves `"Anime+"` unchanged, and more generally the symbol-replacement
step leaves any string without the exact substring `" + "` untouched. -/
theorem plus_canonicalization :
    normalizeGroupTitle (some "Comedy + Drama") = some "Comedy & Drama" ∧
    normalizeGroupTitle (some "Anime+") = some "Anime+" ∧
    (∀ s : String, hasSub s " + " = false → pyReplaceAll s " + " " & " = s) := by
  refine ⟨by decide, by decide, ?_⟩
  intro s h
  exact replaceAll_id s _ _ h

/-- C6 witness: the symbol-replacement step leaves the concrete string
`"Anime+"` unchanged. -/
theorem plus_canonicalization_witness :
    pyReplaceAll "Anime+" " + " " & " = "Anime+" :=
  plus_canonicalization.2.2 "Anime+" (by decide)
